import Mathlib

/-!
Shallow embedding of the address-book program in `src/main.py`:
field validators (`Phone`, `Birthday`), the `Record` entity, the
`AddressBook` container and its upcoming-birthday query, together with
the calendar arithmetic of CPython `datetime` that the program relies on.

Python `date` values are modelled as civil triples (year, month, day);
date ordering and `timedelta` arithmetic go through `ymd2ord`, the exact
ordinal map CPython uses (`date.toordinal`), and `ord2ymd` mirrors
CPython `_ord2ymd`.  Python exceptions are modelled with `Except`.
-/

namespace Hw8

/-- Python exception classes relevant to the program. -/
inductive PyErr where
  | valueError (msg : String)
  | typeError (msg : String)
  | overflowError (msg : String)
deriving DecidableEq

/-- Start codepoints of the value runs of ten Unicode decimal digits
(general category Nd) in Unicode 14.0, the character database of the
reference interpreter (CPython 3.11).  Python `re`'s `\d` on `str` matches
exactly the Nd category, not only ASCII `0-9`; the mathematical digit
block U+1D7CE-U+1D7FF appears as five runs because its digit values
restart at every tenth codepoint. -/
def ndStarts : List Nat :=
  [0x30, 0x660, 0x6F0, 0x7C0, 0x966, 0x9E6, 0xA66, 0xAE6, 0xB66, 0xBE6,
   0xC66, 0xCE6, 0xD66, 0xDE6, 0xE50, 0xED0, 0xF20, 0x1040, 0x1090, 0x17E0,
   0x1810, 0x1946, 0x19D0, 0x1A80, 0x1A90, 0x1B50, 0x1BB0, 0x1C40, 0x1C50,
   0xA620, 0xA8D0, 0xA900, 0xA9D0, 0xA9F0, 0xAA50, 0xABF0, 0xFF10,
   0x104A0, 0x10D30, 0x11066, 0x110F0, 0x11136, 0x111D0, 0x112F0, 0x11450,
   0x114D0, 0x11650, 0x116C0, 0x11730, 0x118E0, 0x11950, 0x11C50, 0x11D50,
   0x11DA0, 0x16A60, 0x16AC0, 0x16B50, 0x1D7CE, 0x1D7D8, 0x1D7E2, 0x1D7EC,
   0x1D7F6, 0x1E140, 0x1E2F0, 0x1E950, 0x1FBF0]

/-- The decimal value of a character under Python `\d` (Unicode Nd), if any. -/
def pyDigitVal? (c : Char) : Option Nat :=
  ndStarts.findSome? (fun s =>
    if s ≤ c.toNat ∧ c.toNat < s + 10 then some (c.toNat - s) else none)

/-- Whether Python `\d` matches the character. -/
def isPyDigit (c : Char) : Bool := (pyDigitVal? c).isSome

/-- ASCII decimal digit test (the digits the spec says `Phone.validate`
should accept). -/
def isAsciiDigit (c : Char) : Bool := 48 ≤ c.toNat && c.toNat ≤ 57

/-- The ASCII digit character for a value below ten. -/
def decDigit : Nat → Char
  | 0 => '0' | 1 => '1' | 2 => '2' | 3 => '3' | 4 => '4'
  | 5 => '5' | 6 => '6' | 7 => '7' | 8 => '8' | _ => '9'

/-- Decimal digit values of a natural number, most significant first
(fuel-driven so that it reduces structurally). -/
def natDigitsAux : Nat → Nat → List Nat
  | 0, _ => []
  | fuel + 1, n => if n < 10 then [n] else natDigitsAux fuel (n / 10) ++ [n % 10]

/-- Decimal digit values of a natural number, most significant first. -/
def natDigits (n : Nat) : List Nat := natDigitsAux (n + 1) n

/-- Decimal rendering of a natural number as characters (what Python
`str`/`%Y` print on the reference platform: no padding). -/
def natToDec (n : Nat) : List Char := (natDigits n).map decDigit

/-- Two-digit zero padding, as C `strftime` `%d` and `%m` produce. -/
def pad2 (n : Nat) : List Char := if n < 10 then '0' :: natToDec n else natToDec n

/-- Four-digit zero padding (the `YYYY` of the spec's literal `DD.MM.YYYY`). -/
def pad4 (n : Nat) : List Char :=
  List.replicate (4 - (natToDec n).length) '0' ++ natToDec n

/-- Gregorian leap-year test, as CPython `_is_leap`. -/
def isLeap (y : Nat) : Bool := y % 4 == 0 && (y % 100 != 0 || y % 400 == 0)

/-- `_DAYS_BEFORE_MONTH` of CPython: days before the month in a non-leap year. -/
def daysBeforeMonthTable : Nat → Nat
  | 1 => 0 | 2 => 31 | 3 => 59 | 4 => 90 | 5 => 120 | 6 => 151
  | 7 => 181 | 8 => 212 | 9 => 243 | 10 => 273 | 11 => 304 | 12 => 334
  | _ => 365

/-- Days in the month given the leap flag, as CPython `_days_in_month`. -/
def daysInMonthFlag (leap : Bool) : Nat → Nat
  | 2 => if leap then 29 else 28
  | 4 => 30 | 6 => 30 | 9 => 30 | 11 => 30
  | _ => 31

/-- Days before the month given the leap flag, as CPython `_days_before_month`. -/
def daysBeforeMonthFlag (leap : Bool) (m : Nat) : Nat :=
  daysBeforeMonthTable m + (if leap && decide (2 < m) then 1 else 0)

/-- A civil (year, month, day) triple; the payload of Python `date` and of
the (midnight) `datetime` values the program builds. -/
structure DateT where
  y : Nat
  m : Nat
  d : Nat
deriving DecidableEq

/-- Validity of a civil triple as a Python `date`/`datetime`
(`MINYEAR = 1`, `MAXYEAR = 9999`, day within the month). -/
def isValidDate (dt : DateT) : Bool :=
  1 ≤ dt.y && dt.y ≤ 9999 && 1 ≤ dt.m && dt.m ≤ 12 &&
  1 ≤ dt.d && dt.d ≤ daysInMonthFlag (isLeap dt.y) dt.m

/-- `_days_before_year` of CPython. -/
def daysBeforeYear (y : Nat) : Nat :=
  (y - 1) * 365 + (y - 1) / 4 - (y - 1) / 100 + (y - 1) / 400

/-- `date.toordinal`: day 1 is 0001-01-01. -/
def ymd2ord (dt : DateT) : Nat :=
  daysBeforeYear dt.y + daysBeforeMonthFlag (isLeap dt.y) dt.m + dt.d

/-- The largest ordinal, `date.max.toordinal()`. -/
def maxOrdinal : Nat := ymd2ord ⟨9999, 12, 31⟩

/-- `date.fromordinal` / CPython `_ord2ymd`, mirrored step by step
(`>> 5` written as division by 32). -/
def ord2ymd (nn : Nat) : DateT :=
  let n0 := nn - 1
  let n400 := n0 / 146097
  let r400 := n0 % 146097
  let n100 := r400 / 36524
  let r100 := r400 % 36524
  let n4 := r100 / 1461
  let r4 := r100 % 1461
  let n1 := r4 / 365
  let n := r4 % 365
  let year := n400 * 400 + 1 + n100 * 100 + n4 * 4 + n1
  if n1 = 4 ∨ n100 = 4 then ⟨year - 1, 12, 31⟩
  else
    let leap := n1 == 3 && (n4 != 24 || n100 == 3)
    let month := (n + 50) / 32
    let preceding := daysBeforeMonthFlag leap month
    if n < preceding then
      let month2 := month - 1
      let preceding2 := preceding - daysInMonthFlag leap month2
      ⟨year, month2, n - preceding2 + 1⟩
    else ⟨year, month, n - preceding + 1⟩

/-- `date.weekday()`: Monday is 0, computed from the ordinal exactly as
CPython does. -/
def weekdayOfOrd (o : Nat) : Nat := (o + 6) % 7

/-- `strftime("%d.%m.%Y")` on the reference platform: zero-padded day and
month, year printed as a plain decimal number. -/
def fmtDMY (dt : DateT) : String :=
  ⟨pad2 dt.d ++ '.' :: (pad2 dt.m ++ '.' :: natToDec dt.y)⟩

/-- `strftime("%Y.%m.%d")` on the reference platform. -/
def fmtYMD (dt : DateT) : String :=
  ⟨natToDec dt.y ++ '.' :: (pad2 dt.m ++ '.' :: pad2 dt.d)⟩

/-- The spec's literal `DD.MM.YYYY` rendering: two-digit day and month,
four-digit zero-padded year. -/
def zeroPadDMY (dt : DateT) : String :=
  ⟨pad2 dt.d ++ '.' :: (pad2 dt.m ++ '.' :: pad4 dt.y)⟩

/-! ### The `strptime(value, "%d.%m.%Y")` matcher

CPython `_strptime` compiles the format to the regex
`(?P<d>3[01]|[12]\d|0[1-9]|[1-9])\.(?P<m>1[0-2]|0[1-9]|[1-9])\.(?P<Y>\d\d\d\d)`
and requires the whole input to be consumed.  Each alternative is modelled
by a function consuming a prefix; the alternation backtracks in regex
order via `List.findSome?`. -/

/-- ASCII range test on a character (used for the literal classes of the
pattern, such as `[1-9]`, which are ASCII-only). -/
def inRange (c : Char) (lo hi : Char) : Bool := decide (lo ≤ c) && decide (c ≤ hi)

/-- Value of an ASCII digit character. -/
def aVal (c : Char) : Nat := c.toNat - 48

/-- Day alternative `3[01]`. -/
def alt31 : List Char → Option (Nat × List Char)
  | '3' :: c :: rest => if c = '0' || c = '1' then some (30 + aVal c, rest) else none
  | _ => none

/-- Day alternative `[12]\d` (the `\d` is Unicode-aware). -/
def altTens : List Char → Option (Nat × List Char)
  | c1 :: c2 :: rest =>
    if c1 = '1' || c1 = '2' then
      (pyDigitVal? c2).map (fun v => (aVal c1 * 10 + v, rest))
    else none
  | _ => none

/-- Alternative `0[1-9]` (shared by day and month). -/
def altZero : List Char → Option (Nat × List Char)
  | '0' :: c :: rest => if inRange c '1' '9' then some (aVal c, rest) else none
  | _ => none

/-- Alternative `[1-9]` (shared by day and month). -/
def altOne : List Char → Option (Nat × List Char)
  | c :: rest => if inRange c '1' '9' then some (aVal c, rest) else none
  | _ => none

/-- Month alternative `1[0-2]`. -/
def altMTens : List Char → Option (Nat × List Char)
  | '1' :: c :: rest => if inRange c '0' '2' then some (10 + aVal c, rest) else none
  | _ => none

/-- The day alternation `3[01]|[12]\d|0[1-9]|[1-9]`, in regex order. -/
def dayAlts (s : List Char) : List (Nat × List Char) :=
  (alt31 s).toList ++ (altTens s).toList ++ (altZero s).toList ++ (altOne s).toList

/-- The month alternation `1[0-2]|0[1-9]|[1-9]`, in regex order. -/
def monthAlts (s : List Char) : List (Nat × List Char) :=
  (altMTens s).toList ++ (altZero s).toList ++ (altOne s).toList

/-- The year pattern `\d\d\d\d` (Unicode-aware). -/
def year4? : List Char → Option (Nat × List Char)
  | a :: b :: c :: d :: rest =>
    match pyDigitVal? a, pyDigitVal? b, pyDigitVal? c, pyDigitVal? d with
    | some va, some vb, some vc, some vd =>
      some (va * 1000 + vb * 100 + vc * 10 + vd, rest)
    | _, _, _, _ => none
  | _ => none

/-- The year pattern plus `strptime`'s check that no unconverted data remains. -/
def matchTailY (cs : List Char) : Option Nat :=
  match year4? cs with
  | some (y, []) => some y
  | _ => none

/-- Full match of `%d.%m.%Y` against the input, with backtracking in regex
order.  Returns the civil triple that `strptime` would assemble. -/
def matchDMY (s : List Char) : Option DateT :=
  (dayAlts s).findSome? (fun dr =>
    match dr.2 with
    | '.' :: r2 =>
      (monthAlts r2).findSome? (fun mr =>
        match mr.2 with
        | '.' :: r4 => (matchTailY r4).map (fun y => (⟨y, mr.1, dr.1⟩ : DateT))
        | _ => none)
    | _ => none)

/-- `datetime.strptime(s, "%d.%m.%Y")`: regex match, then the `datetime`
constructor validates the triple (raising `ValueError` otherwise). -/
def pyStrptimeDMY (s : List Char) : Except PyErr DateT :=
  match matchDMY s with
  | some dt =>
    if isValidDate dt then .ok dt
    else .error (.valueError "day is out of range for month")
  | none => .error (.valueError "time data does not match format")

/-! ### Declarative component languages

Used to state what the matcher accepts: the input splits at two dots into
a day component, a month component and a four-digit year component. -/

/-- Strings accepted by the day alternation when consumed whole, with the
day value they denote. -/
def dayLang : List Char → Option Nat
  | ['3', c] => if c = '0' || c = '1' then some (30 + aVal c) else none
  | ['0', c] => if inRange c '1' '9' then some (aVal c) else none
  | [c1, c2] =>
    if c1 = '1' || c1 = '2' then (pyDigitVal? c2).map (fun v => aVal c1 * 10 + v)
    else none
  | [c] => if inRange c '1' '9' then some (aVal c) else none
  | _ => none

/-- Strings accepted by the month alternation when consumed whole. -/
def monthLang : List Char → Option Nat
  | ['1', c] => if inRange c '0' '2' then some (10 + aVal c) else none
  | ['0', c] => if inRange c '1' '9' then some (aVal c) else none
  | [c] => if inRange c '1' '9' then some (aVal c) else none
  | _ => none

/-- Strings accepted by the year pattern when consumed whole. -/
def yearLang : List Char → Option Nat
  | [a, b, c, d] =>
    match pyDigitVal? a, pyDigitVal? b, pyDigitVal? c, pyDigitVal? d with
    | some va, some vb, some vc, some vd =>
      some (va * 1000 + vb * 100 + vc * 10 + vd)
    | _, _, _, _ => none
  | _ => none

/-! ### Field validators -/

/-- Error message of `Phone.validate` in `src/main.py`. -/
def phoneErrMsg : String := "Введіть коректний номер телефону, він повинен містити 10 цифр"

/-- Error message of `Birthday.__init__` in `src/main.py`. -/
def birthdayErrMsg : String := "Invalid date format. Use DD.MM.YYYY"

/-- The `Phone` field: a validated phone-number string. -/
structure Phone where
  value : String
deriving DecidableEq

/-- `Phone.validate`: `re.fullmatch(r"\d{10}", value)` succeeds exactly when
the string is ten characters long and every character is a Unicode decimal
digit. -/
def Phone.validate (s : String) : Bool :=
  s.data.length == 10 && s.data.all isPyDigit

/-- `Phone.__init__`: validate, then store the value unchanged. -/
def Phone.init (s : String) : Except PyErr Phone :=
  if Phone.validate s then .ok ⟨s⟩ else .error (.valueError phoneErrMsg)

/-- The `Birthday` field: the `datetime` parsed by `strptime`. -/
structure Birthday where
  value : DateT
deriving DecidableEq

/-- `Birthday.__init__`: parse with `strptime("%d.%m.%Y")`; any `ValueError`
is replaced by the fixed message. -/
def Birthday.init (s : String) : Except PyErr Birthday :=
  match pyStrptimeDMY s.data with
  | .ok dt => .ok ⟨dt⟩
  | .error _ => .error (.valueError birthdayErrMsg)

/-- `Birthday.__str__`: `strftime("%d.%m.%Y")`. -/
def Birthday.str (b : Birthday) : String := fmtDMY b.value

/-- The `Name` field. -/
structure Name where
  value : String
deriving DecidableEq

/-! ### Dynamic typing of temporal values

`Record.days_to_birthday` mixes `datetime` values (the stored birthday and
its `replace(...)` results) with the `date` value `datetime.today().date()`.
CPython refuses to order or subtract a `datetime` and a plain `date`. -/

/-- A Python temporal value: either a (midnight) `datetime` or a `date`. -/
inductive PyTemporal where
  | datetime (v : DateT)
  | date (v : DateT)

/-- `<` on temporal values: comparing `datetime` with `date` raises
`TypeError`, as CPython does. -/
def pyTemporalLt : PyTemporal → PyTemporal → Except PyErr Bool
  | .datetime a, .datetime b => .ok (decide (ymd2ord a < ymd2ord b))
  | .date a, .date b => .ok (decide (ymd2ord a < ymd2ord b))
  | _, _ => .error (.typeError "cannot compare datetime.datetime to datetime.date")

/-- `-` on temporal values, in days: subtracting a `date` from a `datetime`
raises `TypeError`, as CPython does. -/
def pyTemporalSub : PyTemporal → PyTemporal → Except PyErr Int
  | .datetime a, .datetime b => .ok ((ymd2ord a : Int) - ymd2ord b)
  | .date a, .date b => .ok ((ymd2ord a : Int) - ymd2ord b)
  | _, _ => .error (.typeError "unsupported operand types for subtraction")

/-- `datetime.replace(year=...)` / `date.replace(year=...)`: keep month and
day, validate the new triple (this is where a Feb 29 birthday faults in a
non-leap target year). -/
def DateT.replaceYear (b : DateT) (y : Nat) : Except PyErr DateT :=
  if isValidDate ⟨y, b.m, b.d⟩ then .ok ⟨y, b.m, b.d⟩
  else .error (.valueError "day is out of range for month")

/-! ### Record -/

/-- One contact: name, ordered phone list, optional birthday. -/
structure Record where
  name : Name
  phones : List Phone
  birthday : Option Birthday
deriving DecidableEq

/-- `Record.__init__`. -/
def Record.init (n : String) : Record := ⟨⟨n⟩, [], none⟩

/-- `Record.add_phone`: `Phone(phone)` is constructed first; on failure the
exception propagates and the list is untouched, on success the phone is
appended.  The pair is (raised exception or unit, record afterwards). -/
def Record.add_phone (r : Record) (p : String) : Except PyErr Unit × Record :=
  match Phone.init p with
  | .ok ph => (.ok (), { r with phones := r.phones ++ [ph] })
  | .error e => (.error e, r)

/-- `Record.remove_phone`: keep the phones whose value differs. -/
def Record.remove_phone (r : Record) (p : String) : Record :=
  { r with phones := r.phones.filter (fun q => q.value ≠ p) }

/-- Replace the first phone whose value is `old` by `np`. -/
def editPhoneList (old : String) (np : Phone) : List Phone → List Phone
  | [] => []
  | q :: rest => if q.value = old then np :: rest else q :: editPhoneList old np rest

/-- `Record.edit_phone`: scan for the first phone equal to `old_phone`; if
found, `Phone(new_phone)` is constructed (exception propagates, list
untouched) and assigned in place; if absent, silent no-op. -/
def Record.edit_phone (r : Record) (old np : String) : Except PyErr Unit × Record :=
  if r.phones.any (fun q => q.value = old) then
    match Phone.init np with
    | .ok ph => (.ok (), { r with phones := editPhoneList old ph r.phones })
    | .error e => (.error e, r)
  else (.ok (), r)

/-- `Record.add_birthday`: `Birthday(birthday)` then store, overwriting. -/
def Record.add_birthday (r : Record) (s : String) : Except PyErr Unit × Record :=
  match Birthday.init s with
  | .ok b => (.ok (), { r with birthday := some b })
  | .error e => (.error e, r)

/-- `Record.days_to_birthday`, with the current date supplied (the source
reads `datetime.today().date()`; the spec's interface passes it in).
`next_birthday` stays a `datetime` while `today` is a `date`, so the
comparison — and the subtraction after it — raise `TypeError`. -/
def Record.days_to_birthday (r : Record) (today : DateT) : Except PyErr (Option Int) :=
  match r.birthday with
  | none => .ok none
  | some b =>
    match DateT.replaceYear b.value today.y with
    | .error e => .error e
    | .ok nb =>
      match pyTemporalLt (.datetime nb) (.date today) with
      | .error e => .error e
      | .ok lt =>
        match (if lt then DateT.replaceYear b.value (today.y + 1) else .ok nb) with
        | .error e => .error e
        | .ok nb2 =>
          match pyTemporalSub (.datetime nb2) (.date today) with
          | .error e => .error e
          | .ok days => .ok (some days)

/-! ### AddressBook -/

/-- The book: a `dict` from name to record, insertion-ordered. -/
abbrev AddressBook := List (String × Record)

/-- `dict.__setitem__`: overwrite in place if the key exists, else append. -/
def dictInsert : AddressBook → String → Record → AddressBook
  | [], k, v => [(k, v)]
  | (k0, v0) :: rest, k, v =>
    if k0 = k then (k0, v) :: rest else (k0, v0) :: dictInsert rest k v

/-- `AddressBook.add_record`: key the record by its own name. -/
def AddressBook.add_record (book : AddressBook) (r : Record) : AddressBook :=
  dictInsert book r.name.value r

/-- `AddressBook.find`: `self.data.get(name, None)`. -/
def AddressBook.find : AddressBook → String → Option Record
  | [], _ => none
  | (k, v) :: rest, n => if k = n then some v else AddressBook.find rest n

/-- `AddressBook.delete`: remove the key if present, silently otherwise. -/
def AddressBook.delete (book : AddressBook) (n : String) : AddressBook :=
  book.filter (fun kv => kv.1 ≠ n)

/-- One entry collected by `get_upcoming_birthdays`: the contact name and
the ordinal of the congratulation date (the loop formats it immediately;
formatting is applied by `Entry.render`). -/
structure Entry where
  name : String
  congrats : Nat
deriving DecidableEq

/-- Formatting an entry as the code's `{"name": ..., "congratulation_date":
strftime("%Y.%m.%d")}`. -/
def Entry.render (e : Entry) : String × String := (e.name, fmtYMD (ord2ymd e.congrats))

/-- The birthday occurrence the loop computes: `replace(year=today.year)`,
and if that fell before today, `replace(year=today.year + 1)`. -/
def birthdayOccurrence (today : DateT) (b : Birthday) : Except PyErr DateT :=
  match DateT.replaceYear b.value today.y with
  | .error e => .error e
  | .ok b1 =>
    if ymd2ord b1 < ymd2ord today then DateT.replaceYear b.value (today.y + 1)
    else .ok b1

/-- The loop body of `get_upcoming_birthdays` for one record, given the
window end ordinal `nw` and the precomputed `first_day_of_next_week`. -/
def recordEntry (today : DateT) (nw firstDay : Nat) (r : Record) :
    Except PyErr (Option Entry) :=
  match r.birthday with
  | none => .ok none
  | some b =>
    match birthdayOccurrence today b with
    | .error e => .error e
    | .ok bty =>
      if ymd2ord today ≤ ymd2ord bty ∧ ymd2ord bty ≤ nw then
        if weekdayOfOrd (ymd2ord bty) ≤ 4 then
          .ok (some ⟨r.name.value, ymd2ord bty⟩)
        else if weekdayOfOrd (ymd2ord bty) = 5 ∨ weekdayOfOrd (ymd2ord bty) = 6 then
          .ok (some ⟨r.name.value, firstDay⟩)
        else .ok none
      else .ok none

/-- The loop of `get_upcoming_birthdays` over the records, in book order. -/
def upcomingEntries (today : DateT) (nw firstDay : Nat) :
    List Record → Except PyErr (List Entry)
  | [] => .ok []
  | r :: rs =>
    match recordEntry today nw firstDay r with
    | .error e => .error e
    | .ok oe =>
      match upcomingEntries today nw firstDay rs with
      | .error e => .error e
      | .ok es => .ok (match oe with | some x => x :: es | none => es)

/-- `today + timedelta(days=7)` as an ordinal; Python raises
`OverflowError` past `date.max`. -/
def nextWeekOrd (today : DateT) : Except PyErr Nat :=
  if ymd2ord today + 7 ≤ maxOrdinal then .ok (ymd2ord today + 7)
  else .error (.overflowError "date value out of range")

/-- Python string `<=`: code-point lexicographic. -/
def pyStrLe : List Char → List Char → Bool
  | [], _ => true
  | _ :: _, [] => false
  | a :: as, b :: bs =>
    if a.toNat < b.toNat then true
    else if b.toNat < a.toNat then false
    else pyStrLe as bs

/-- Stable insertion into a list sorted by the congratulation-date string. -/
def insertByKey (x : String × String) : List (String × String) → List (String × String)
  | [] => [x]
  | y :: ys => if pyStrLe x.2.data y.2.data then x :: y :: ys else y :: insertByKey x ys

/-- `sorted(..., key=lambda x: x["congratulation_date"])`: a stable sort by
the formatted date string (stable sorts by one key agree, so insertion
sort models Python's sort exactly). -/
def sortByKey : List (String × String) → List (String × String)
  | [] => []
  | x :: xs => insertByKey x (sortByKey xs)

/-- `AddressBook.get_upcoming_birthdays`, with the current date supplied
(the source reads `datetime.today().date()`).  Computes the window end and
`first_day_of_next_week`, collects the entries, formats and sorts them. -/
def AddressBook.get_upcoming_birthdays (book : AddressBook) (today : DateT) :
    Except PyErr (List (String × String)) :=
  match nextWeekOrd today with
  | .error e => .error e
  | .ok nw =>
    match upcomingEntries today nw (nw - weekdayOfOrd nw) (book.map Prod.snd) with
    | .error e => .error e
    | .ok es => .ok (sortByKey (es.map Entry.render))

/-! ### Operation sequences on the book (for the container invariant) -/

/-- The mutation/query surface exercised by the invariant claim. -/
inductive BookOp where
  | add (r : Record)
  | del (n : String)
  | lookup (n : String)

/-- Apply one operation (`find` does not mutate). -/
def applyOp (book : AddressBook) : BookOp → AddressBook
  | .add r => book.add_record r
  | .del n => book.delete n
  | .lookup _ => book

/-- Apply a sequence of operations to the empty book. -/
def applyOps (ops : List BookOp) : AddressBook := ops.foldl applyOp []

/-- Key-record consistency: every key equals the name of its record. -/
def bookInv (book : AddressBook) : Prop :=
  ∀ kv ∈ book, kv.1 = kv.2.name.value

/-! ### Concrete fixtures used by the scenario checks -/

/-- Ten Arabic-Indic digit characters (U+0660), all matched by `\d`. -/
def arabicTen : String := ⟨List.replicate 10 (Char.ofNat 0x660)⟩

/-- The record of the spec scenario: "Bob" with birthday 08.06 (year 1990). -/
def bobRecord : Record := (Record.add_birthday (Record.init ("Bob")) ("08.06.1990")).2

/-- A book holding only `bobRecord`. -/
def bobBook : AddressBook := AddressBook.add_record [] bobRecord

/-- A record whose birthday month/day (08.06) equal the test date 2024-06-08. -/
def annaRecord : Record := (Record.add_birthday (Record.init ("Anna")) ("08.06.1990")).2

/-- A record with a Feb 29 birthday (2024 is a leap year, so it parses). -/
def leapRecord : Record := (Record.add_birthday (Record.init ("Lena")) ("29.02.2024")).2

/-- A record with two distinct valid phones, for the edit-phone scenario. -/
def editRecord : Record :=
  ⟨⟨"Dana"⟩, [⟨"1111111111"⟩, ⟨"2222222222"⟩], none⟩

/-! ## Theorems -/

/-- Replacing the first matching phone in a list whose prefix has no match. -/
theorem editPhoneList_append (old : String) (np : Phone) (post : List Phone) :
    ∀ pre : List Phone, (∀ q ∈ pre, q.value ≠ old) →
      editPhoneList old np (pre ++ ⟨old⟩ :: post) = pre ++ np :: post := by
  intro pre
  induction pre with
  | nil => intro _; simp [editPhoneList]
  | cons q qs ih =>
    intro hpre
    have hq : q.value ≠ old := hpre q (by simp)
    simp only [List.cons_append, editPhoneList, if_neg hq, List.append_eq]
    rw [ih (fun p hp => hpre p (by simp [hp]))]

/-- Claim C7: if the phone list splits as `pre ++ [old] ++ post` with no
occurrence of `old` in `pre`, and the new number is valid, `edit_phone`
succeeds and replaces exactly that entry in place, leaving the rest of the
record untouched. -/
theorem claim_C7 (r : Record) (pre post : List Phone) (old np : String)
    (hsplit : r.phones = pre ++ ⟨old⟩ :: post)
    (hpre : ∀ q ∈ pre, q.value ≠ old)
    (hvalid : Phone.validate np = true) :
    (r.edit_phone old np).1 = .ok () ∧
    (r.edit_phone old np).2.phones = pre ++ ⟨np⟩ :: post ∧
    (r.edit_phone old np).2.name = r.name ∧
    (r.edit_phone old np).2.birthday = r.birthday := by
  have hany : r.phones.any (fun q => q.value = old) = true := by
    rw [hsplit]; simp
  have hinit : Phone.init np = .ok ⟨np⟩ := by rw [Phone.init, if_pos hvalid]
  rw [Record.edit_phone, if_pos hany, hinit]
  refine ⟨rfl, ?_, rfl, rfl⟩
  simp only [hsplit]
  exact editPhoneList_append old ⟨np⟩ post pre hpre

/-- Witness for C7 at a concrete record: editing the second of two phones. -/
theorem claim_C7_witness :
    (editRecord.edit_phone "2222222222" "3333333333").1 = .ok () ∧
    (editRecord.edit_phone "2222222222" "3333333333").2.phones =
      [⟨"1111111111"⟩] ++ ⟨"3333333333"⟩ :: [] ∧
    (editRecord.edit_phone "2222222222" "3333333333").2.name = editRecord.name ∧
    (editRecord.edit_phone "2222222222" "3333333333").2.birthday = editRecord.birthday :=
  claim_C7 editRecord [⟨"1111111111"⟩] [] "2222222222" "3333333333"
    (by rfl) (by decide) (by decide)

/-- Claim C8: a `ValidationError` from `add_phone`, or from `edit_phone`
with an invalid new number, leaves the record entirely unchanged; in
particular `Record("Carl").add_phone("12345")` fails and the phone list
stays empty. -/
theorem claim_C8 :
    (∀ (r : Record) (p : String) (e : PyErr),
        (r.add_phone p).1 = .error e → (r.add_phone p).2 = r) ∧
    (∀ (r : Record) (old np : String) (e : PyErr),
        (r.edit_phone old np).1 = .error e → (r.edit_phone old np).2 = r) ∧
    ((Record.init ("Carl")).add_phone ("12345")).1 = .error (.valueError phoneErrMsg) ∧
    ((Record.init ("Carl")).add_phone ("12345")).2.phones = [] := by
  refine ⟨?_, ?_, by rfl, by rfl⟩
  · intro r p e h
    rw [Record.add_phone] at h ⊢
    cases hp : Phone.init p with
    | ok ph => rw [hp] at h; exact absurd h (by simp)
    | error e2 => rfl
  · intro r old np e h
    rw [Record.edit_phone] at h ⊢
    by_cases hany : r.phones.any (fun q => q.value = old) = true
    · rw [if_pos hany] at h ⊢
      cases hp : Phone.init np with
      | ok ph => rw [hp] at h; exact absurd h (by simp)
      | error e2 => rfl
    · rw [if_neg hany] at h
      exact absurd h (by simp)

/-- Witness for C8 at the spec scenario input. -/
theorem claim_C8_witness :
    ((Record.init ("Carl")).add_phone ("12345")).2 = Record.init ("Carl") :=
  claim_C8.1 (Record.init ("Carl")) ("12345") (.valueError phoneErrMsg) (by rfl)

/-- Claim C3 (evaluation at the failing input): with birthday 08.06 and
today 2024-06-08 — same month and day — `days_to_birthday` does not return
0: it raises `TypeError`, because the stored `datetime` is compared with
the plain `date` for today. -/
theorem claim_C3 :
    annaRecord.birthday = some ⟨⟨1990, 6, 8⟩⟩ ∧
    annaRecord.days_to_birthday ⟨2024, 6, 8⟩ =
      .error (.typeError "cannot compare datetime.datetime to datetime.date") := by
  exact ⟨rfl, rfl⟩

/-- Claim C9 (evaluation at the failing input): a Feb 29 birthday with a
non-leap current year makes `days_to_birthday` fault in
`replace(year=...)` instead of returning a result. -/
theorem claim_C9 :
    leapRecord.birthday = some ⟨⟨2024, 2, 29⟩⟩ ∧
    leapRecord.days_to_birthday ⟨2025, 6, 1⟩ =
      .error (.valueError "day is out of range for month") := by
  exact ⟨rfl, rfl⟩

/-- `dict` insertion preserves key-record consistency when the key is the
record's own name. -/
theorem bookInv_dictInsert {book : AddressBook} (hinv : bookInv book) (r : Record) :
    bookInv (dictInsert book r.name.value r) := by
  induction book with
  | nil => intro kv hkv; simp [dictInsert] at hkv; simp [hkv]
  | cons kv0 rest ih =>
    intro kv hkv
    rw [dictInsert] at hkv
    by_cases hk : kv0.1 = r.name.value
    · rw [if_pos hk] at hkv
      rcases List.mem_cons.mp hkv with h | h
      · rw [h]; exact hk
      · exact hinv kv (by simp [h])
    · rw [if_neg hk] at hkv
      rcases List.mem_cons.mp hkv with h | h
      · rw [h]; exact hinv kv0 (by simp)
      · exact ih (fun p hp => hinv p (by simp [hp])) kv h

/-- Every operation preserves key-record consistency. -/
theorem bookInv_applyOp {book : AddressBook} (hinv : bookInv book) (op : BookOp) :
    bookInv (applyOp book op) := by
  cases op with
  | add r => exact bookInv_dictInsert hinv r
  | del n =>
    intro kv hkv
    exact hinv kv (List.mem_of_mem_filter hkv)
  | lookup n => exact hinv

/-- Key-record consistency holds after any operation sequence from a
consistent start. -/
theorem bookInv_foldl : ∀ (ops : List BookOp) (book : AddressBook),
    bookInv book → bookInv (ops.foldl applyOp book) := by
  intro ops
  induction ops with
  | nil => intro book h; exact h
  | cons op rest ih => intro book h; exact ih _ (bookInv_applyOp h op)

/-- In a consistent book, `find n` only returns records named `n`. -/
theorem find_name : ∀ (book : AddressBook), bookInv book →
    ∀ (n : String) (r : Record), book.find n = some r → r.name.value = n := by
  intro book
  induction book with
  | nil => intro _ n r h; simp [AddressBook.find] at h
  | cons kv rest ih =>
    intro hinv n r h
    rw [AddressBook.find] at h
    by_cases hk : kv.1 = n
    · rw [if_pos hk] at h
      have : kv.2 = r := by injection h
      rw [← this, ← hinv kv (by simp), hk]
    · rw [if_neg hk] at h
      exact ih (fun p hp => hinv p (by simp [hp])) n r h

/-- Claim C10: starting from the empty book, any sequence of `add_record`,
`delete` and `find` keeps every key equal to its record's name, and `find`
only returns records carrying the requested name. -/
theorem claim_C10 (ops : List BookOp) :
    bookInv (applyOps ops) ∧
    ∀ (n : String) (r : Record), (applyOps ops).find n = some r → r.name.value = n := by
  have hinv : bookInv (applyOps ops) := bookInv_foldl ops [] (by intro kv hkv; simp at hkv)
  exact ⟨hinv, find_name _ hinv⟩

/-- Witness for C10: one insertion, then a successful lookup. -/
theorem claim_C10_witness : (Record.init ("Greta")).name.value = "Greta" :=
  (claim_C10 [BookOp.add (Record.init ("Greta"))]).2 ("Greta") (Record.init ("Greta")) (by rfl)

/-- Counterexample to C4 as stated: ten Arabic-Indic digits (U+0660) pass
`Phone.validate`, although they are not ASCII decimal digits. -/
theorem claim_C4_counterexample :
    Phone.init arabicTen = .ok ⟨arabicTen⟩ ∧
    arabicTen.data.length = 10 ∧
    arabicTen.data.all isAsciiDigit = false := by
  exact ⟨rfl, rfl, rfl⟩

/-- Claim C4 (amended): validation succeeds exactly when the string is ten
Unicode decimal digits (Python `\d`); on success the stored value is the
input unchanged; every other string fails with the `ValueError` message. -/
theorem claim_C4 (s : String) :
    ((∃ p, Phone.init s = .ok p) ↔ (s.data.length = 10 ∧ s.data.all isPyDigit = true)) ∧
    (∀ p, Phone.init s = .ok p → p.value = s) ∧
    (¬(s.data.length = 10 ∧ s.data.all isPyDigit = true) →
      Phone.init s = .error (.valueError phoneErrMsg)) := by
  by_cases hv : Phone.validate s = true
  · have hcond : s.data.length = 10 ∧ s.data.all isPyDigit = true := by
      have hx := hv
      rw [Phone.validate, Bool.and_eq_true, beq_iff_eq] at hx
      exact hx
    have hok : Phone.init s = .ok ⟨s⟩ := by rw [Phone.init, if_pos hv]
    refine ⟨⟨fun _ => hcond, fun _ => ⟨⟨s⟩, hok⟩⟩, ?_, fun hc => absurd hcond hc⟩
    intro p hp
    rw [hok] at hp
    injection hp with hp
    rw [← hp]
  · have herr : Phone.init s = .error (.valueError phoneErrMsg) := by
      rw [Phone.init, if_neg hv]
    have hcond : ¬(s.data.length = 10 ∧ s.data.all isPyDigit = true) := by
      intro hc
      exact hv (by rw [Phone.validate, Bool.and_eq_true, beq_iff_eq]; exact hc)
    refine ⟨⟨?_, fun hc => absurd hc hcond⟩, ?_, fun _ => herr⟩
    · rintro ⟨p, hp⟩
      rw [herr] at hp
      exact absurd hp (by simp)
    · intro p hp
      rw [herr] at hp
      exact absurd hp (by simp)

/-- Witness for C4 at a concrete valid input. -/
theorem claim_C4_witness :
    ("0123456789" : String).data.length = 10 ∧
    ("0123456789" : String).data.all isPyDigit = true :=
  (claim_C4 ("0123456789")).1.mp ⟨⟨"0123456789"⟩, by rfl⟩

/-- The weekday index is always below seven. -/
theorem weekdayOfOrd_lt (o : Nat) : weekdayOfOrd o < 7 := Nat.mod_lt _ (by omega)

/-- Any entry the loop body produces — weekday or weekend-shifted — has its
congratulation ordinal inside `[today, today + 7]`. -/
theorem recordEntry_window {today : DateT} {r : Record} {e : Entry}
    (h : recordEntry today (ymd2ord today + 7)
      (ymd2ord today + 7 - weekdayOfOrd (ymd2ord today + 7)) r = .ok (some e)) :
    ymd2ord today ≤ e.congrats ∧ e.congrats ≤ ymd2ord today + 7 := by
  rw [recordEntry] at h
  cases hb : r.birthday with
  | none => simp only [hb] at h; simp at h
  | some b =>
    simp only [hb] at h
    cases hocc : birthdayOccurrence today b with
    | error e2 => simp only [hocc] at h; simp at h
    | ok bty =>
      simp only [hocc] at h
      by_cases hwin : ymd2ord today ≤ ymd2ord bty ∧ ymd2ord bty ≤ ymd2ord today + 7
      · rw [if_pos hwin] at h
        by_cases hw : weekdayOfOrd (ymd2ord bty) ≤ 4
        · rw [if_pos hw] at h
          simp only [Except.ok.injEq, Option.some.injEq] at h
          subst h
          exact hwin
        · rw [if_neg hw] at h
          have h56 : weekdayOfOrd (ymd2ord bty) = 5 ∨ weekdayOfOrd (ymd2ord bty) = 6 := by
            have := weekdayOfOrd_lt (ymd2ord bty)
            omega
          rw [if_pos h56] at h
          simp only [Except.ok.injEq, Option.some.injEq] at h
          subst h
          have h7 : weekdayOfOrd (ymd2ord today + 7) < 7 := weekdayOfOrd_lt _
          constructor
          · show ymd2ord today ≤ ymd2ord today + 7 - weekdayOfOrd (ymd2ord today + 7)
            omega
          · show ymd2ord today + 7 - weekdayOfOrd (ymd2ord today + 7) ≤ ymd2ord today + 7
            omega
      · rw [if_neg hwin] at h
        simp at h

/-- Every entry collected by the loop lies inside the window. -/
theorem upcomingEntries_window {today : DateT} :
    ∀ (rs : List Record) (es : List Entry),
    upcomingEntries today (ymd2ord today + 7)
      (ymd2ord today + 7 - weekdayOfOrd (ymd2ord today + 7)) rs = .ok es →
    ∀ e ∈ es, ymd2ord today ≤ e.congrats ∧ e.congrats ≤ ymd2ord today + 7 := by
  intro rs
  induction rs with
  | nil =>
    intro es h e he
    rw [upcomingEntries] at h
    simp only [Except.ok.injEq] at h
    subst h
    simp at he
  | cons r rest ih =>
    intro es h e he
    rw [upcomingEntries] at h
    cases hre : recordEntry today (ymd2ord today + 7)
        (ymd2ord today + 7 - weekdayOfOrd (ymd2ord today + 7)) r with
    | error e2 => simp only [hre] at h; simp at h
    | ok oe =>
      simp only [hre] at h
      cases hrest : upcomingEntries today (ymd2ord today + 7)
          (ymd2ord today + 7 - weekdayOfOrd (ymd2ord today + 7)) rest with
      | error e2 => simp only [hrest] at h; simp at h
      | ok es2 =>
        simp only [hrest] at h
        cases oe with
        | none =>
          simp only [Except.ok.injEq] at h
          subst h
          exact ih es2 hrest e he
        | some x =>
          simp only [Except.ok.injEq] at h
          subst h
          rcases List.mem_cons.mp he with h1 | h1
          · subst h1
            exact recordEntry_window hre
          · exact ih es2 hrest e h1

/-- Insertion into the key-sorted list only rearranges membership. -/
theorem mem_insertByKey {x z : String × String} : ∀ {l : List (String × String)},
    z ∈ insertByKey x l → z = x ∨ z ∈ l := by
  intro l
  induction l with
  | nil =>
    intro h
    rw [insertByKey] at h
    exact Or.inl (List.mem_singleton.mp h)
  | cons y ys ih =>
    intro h
    rw [insertByKey] at h
    by_cases hle : pyStrLe x.2.data y.2.data = true
    · rw [if_pos hle] at h
      rcases List.mem_cons.mp h with h1 | h1
      · exact Or.inl h1
      · exact Or.inr h1
    · rw [if_neg hle] at h
      rcases List.mem_cons.mp h with h1 | h1
      · exact Or.inr (by simp [h1])
      · rcases ih h1 with h2 | h2
        · exact Or.inl h2
        · exact Or.inr (by simp [h2])

/-- The stable sort only rearranges membership. -/
theorem mem_sortByKey {z : String × String} : ∀ {l : List (String × String)},
    z ∈ sortByKey l → z ∈ l := by
  intro l
  induction l with
  | nil => intro h; rw [sortByKey] at h; simp at h
  | cons x xs ih =>
    intro h
    rw [sortByKey] at h
    rcases mem_insertByKey h with h1 | h1
    · simp [h1]
    · exact List.mem_cons_of_mem _ (ih h1)

/-- Claim C1: every entry `get_upcoming_birthdays` returns carries a
congratulation date whose ordinal lies in `[today, today + 7]` — weekend
shifted entries included. -/
theorem claim_C1 (book : AddressBook) (today : DateT) (out : List (String × String))
    (h : book.get_upcoming_birthdays today = .ok out) :
    ∀ p ∈ out, ∃ o : Nat,
      ymd2ord today ≤ o ∧ o ≤ ymd2ord today + 7 ∧ p.2 = fmtYMD (ord2ymd o) := by
  intro p hp
  rw [AddressBook.get_upcoming_birthdays] at h
  cases hnw : nextWeekOrd today with
  | error e => simp only [hnw] at h; simp at h
  | ok nw =>
    simp only [hnw] at h
    have hnw7 : nw = ymd2ord today + 7 := by
      rw [nextWeekOrd] at hnw
      by_cases hb : ymd2ord today + 7 ≤ maxOrdinal
      · rw [if_pos hb] at hnw
        injection hnw with hnw
        exact hnw.symm
      · rw [if_neg hb] at hnw
        exact absurd hnw (by simp)
    subst hnw7
    cases hes : upcomingEntries today (ymd2ord today + 7)
        (ymd2ord today + 7 - weekdayOfOrd (ymd2ord today + 7)) (book.map Prod.snd) with
    | error e => simp only [hes] at h; simp at h
    | ok es =>
      simp only [hes, Except.ok.injEq] at h
      subst h
      obtain ⟨e, he, hpe⟩ := List.mem_map.mp (mem_sortByKey hp)
      refine ⟨e.congrats, (upcomingEntries_window _ es hes e he).1,
        (upcomingEntries_window _ es hes e he).2, ?_⟩
      rw [← hpe]
      rfl

/-- Witness for C1 at the Bob scenario output. -/
theorem claim_C1_witness : ∃ o : Nat,
    ymd2ord ⟨2024, 6, 3⟩ ≤ o ∧ o ≤ ymd2ord ⟨2024, 6, 3⟩ + 7 ∧
    ("2024.06.10" : String) = fmtYMD (ord2ymd o) :=
  claim_C1 bobBook ⟨2024, 6, 3⟩ [(("Bob" : String), ("2024.06.10" : String))] (by rfl)
    (("Bob" : String), ("2024.06.10" : String)) (by simp)

/-- Claim C2: an in-window occurrence `B` is reported as-is on Mon-Fri and
as the Monday of the week containing the window end (`windowEnd` shifted
back by its weekday) on Sat/Sun; and the Bob scenario yields exactly
`{"Bob": "2024.06.10"}`. -/
theorem claim_C2 :
    (∀ (today : DateT) (r : Record) (b : Birthday) (B : DateT),
        r.birthday = some b →
        birthdayOccurrence today b = .ok B →
        ymd2ord today ≤ ymd2ord B →
        ymd2ord B ≤ ymd2ord today + 7 →
        recordEntry today (ymd2ord today + 7)
            (ymd2ord today + 7 - weekdayOfOrd (ymd2ord today + 7)) r =
          .ok (some ⟨r.name.value,
            if weekdayOfOrd (ymd2ord B) ≤ 4 then ymd2ord B
            else ymd2ord today + 7 - weekdayOfOrd (ymd2ord today + 7)⟩)) ∧
    bobBook.get_upcoming_birthdays ⟨2024, 6, 3⟩ =
      .ok [(("Bob" : String), ("2024.06.10" : String))] := by
  constructor
  · intro today r b B hb hocc h1 h2
    rw [recordEntry]
    simp only [hb, hocc]
    rw [if_pos ⟨h1, h2⟩]
    by_cases hw : weekdayOfOrd (ymd2ord B) ≤ 4
    · rw [if_pos hw, if_pos hw]
    · have h56 : weekdayOfOrd (ymd2ord B) = 5 ∨ weekdayOfOrd (ymd2ord B) = 6 := by
        have := weekdayOfOrd_lt (ymd2ord B)
        omega
      rw [if_neg hw, if_pos h56, if_neg hw]
  · rfl

/-- Witness for C2 at the Bob scenario (birthday 08.06, today 2024-06-03). -/
theorem claim_C2_witness :
    recordEntry ⟨2024, 6, 3⟩ (ymd2ord ⟨2024, 6, 3⟩ + 7)
      (ymd2ord ⟨2024, 6, 3⟩ + 7 - weekdayOfOrd (ymd2ord ⟨2024, 6, 3⟩ + 7)) bobRecord =
    .ok (some ⟨bobRecord.name.value,
      if weekdayOfOrd (ymd2ord ⟨2024, 6, 8⟩) ≤ 4 then ymd2ord ⟨2024, 6, 8⟩
      else ymd2ord ⟨2024, 6, 3⟩ + 7 - weekdayOfOrd (ymd2ord ⟨2024, 6, 3⟩ + 7)⟩) :=
  claim_C2.1 ⟨2024, 6, 3⟩ bobRecord ⟨⟨1990, 6, 8⟩⟩ ⟨2024, 6, 8⟩
    (by rfl) (by rfl) (by decide) (by decide)

/-! ### The strptime matcher versus the declarative split -/

/-- A successful `findSome?` comes from some list element. -/
theorem findSome?_some {α β : Type} {f : α → Option β} :
    ∀ {l : List α} {b : β}, l.findSome? f = some b → ∃ a ∈ l, f a = some b := by
  intro l
  induction l with
  | nil => intro b h; simp [List.findSome?] at h
  | cons x xs ih =>
    intro b h
    rw [List.findSome?] at h
    cases hfx : f x with
    | some y =>
      rw [hfx] at h
      simp at h
      exact ⟨x, by simp, by rw [hfx, h]⟩
    | none =>
      rw [hfx] at h
      obtain ⟨a, ha, hfa⟩ := ih h
      exact ⟨a, by simp [ha], hfa⟩

/-- If some element succeeds, `findSome?` succeeds. -/
theorem findSome?_isSome {α β : Type} {f : α → Option β} :
    ∀ {l : List α} {a : α} {b : β}, a ∈ l → f a = some b → (l.findSome? f).isSome := by
  intro l
  induction l with
  | nil => intro a b ha; simp at ha
  | cons x xs ih =>
    intro a b ha hfa
    rw [List.findSome?]
    cases hfx : f x with
    | some y => simp
    | none =>
      rcases List.mem_cons.mp ha with h1 | h1
      · subst h1; rw [hfa] at hfx; exact absurd hfx (by simp)
      · exact ih h1 hfa

/-- `\d` does not match the dot separator. -/
theorem pyDigitVal?_dot : pyDigitVal? '.' = none := by decide

/-- A `\d` match is not the dot. -/
theorem pyDigit_ne_dot {c : Char} {v : Nat} (h : pyDigitVal? c = some v) : c ≠ '.' := by
  intro he
  subst he
  rw [pyDigitVal?_dot] at h
  exact absurd h (by simp)

/-- An ASCII `1`-`9` character is not the dot. -/
theorem range19_ne_dot {c : Char} (h : inRange c '1' '9' = true) : c ≠ '.' := by
  intro he
  subst he
  exact absurd h (by decide)

/-- An ASCII `0`-`2` character is not the dot. -/
theorem range02_ne_dot {c : Char} (h : inRange c '0' '2' = true) : c ≠ '.' := by
  intro he
  subst he
  exact absurd h (by decide)

/-- Day components never contain the dot. -/
theorem dayLang_no_dot {pre : List Char} {v : Nat} (h : dayLang pre = some v) :
    '.' ∉ pre := by
  rw [dayLang.eq_def] at h
  split at h
  · rename_i c
    split at h
    · rename_i hc
      have hc2 : c = '0' ∨ c = '1' := by simpa using hc
      rcases hc2 with h0 | h0 <;> subst h0 <;> decide
    · exact absurd h (by simp)
  · rename_i c
    split at h
    · rename_i hc
      intro hmem
      rcases List.mem_cons.mp hmem with h1 | h1
      · exact absurd h1.symm (by decide)
      · exact range19_ne_dot hc (List.mem_singleton.mp h1).symm
    · exact absurd h (by simp)
  · rename_i c1 c2 _ _
    split at h
    · rename_i hc
      cases hd : pyDigitVal? c2 with
      | none => rw [hd] at h; exact absurd h (by simp)
      | some v2 =>
        intro hmem
        have hc2 : c1 = '1' ∨ c1 = '2' := by simpa using hc
        rcases hc2 with h0 | h0 <;> subst h0 <;>
          rcases List.mem_cons.mp hmem with h1 | h1 <;>
          first
            | exact absurd h1.symm (by decide)
            | exact pyDigit_ne_dot hd (List.mem_singleton.mp h1).symm
    · exact absurd h (by simp)
  · rename_i c
    split at h
    · rename_i hc
      intro hmem
      exact range19_ne_dot hc (List.mem_singleton.mp hmem).symm
    · exact absurd h (by simp)
  · exact absurd h (by simp)

/-- Month components never contain the dot. -/
theorem monthLang_no_dot {pre : List Char} {v : Nat} (h : monthLang pre = some v) :
    '.' ∉ pre := by
  rw [monthLang.eq_def] at h
  split at h
  · rename_i c
    split at h
    · rename_i hc
      intro hmem
      rcases List.mem_cons.mp hmem with h1 | h1
      · exact absurd h1.symm (by decide)
      · exact range02_ne_dot hc (List.mem_singleton.mp h1).symm
    · exact absurd h (by simp)
  · rename_i c
    split at h
    · rename_i hc
      intro hmem
      rcases List.mem_cons.mp hmem with h1 | h1
      · exact absurd h1.symm (by decide)
      · exact range19_ne_dot hc (List.mem_singleton.mp h1).symm
    · exact absurd h (by simp)
  · rename_i c
    split at h
    · rename_i hc
      intro hmem
      exact range19_ne_dot hc (List.mem_singleton.mp hmem).symm
    · exact absurd h (by simp)
  · exact absurd h (by simp)

/-- Year components never contain the dot. -/
theorem yearLang_no_dot {pre : List Char} {v : Nat} (h : yearLang pre = some v) :
    '.' ∉ pre := by
  rw [yearLang.eq_def] at h
  split at h
  · rename_i a b c d
    cases ha : pyDigitVal? a with
    | none => rw [ha] at h; exact absurd h (by simp)
    | some va =>
    cases hb : pyDigitVal? b with
    | none => rw [ha, hb] at h; exact absurd h (by simp)
    | some vb =>
    cases hc : pyDigitVal? c with
    | none => rw [ha, hb, hc] at h; exact absurd h (by simp)
    | some vc =>
    cases hd : pyDigitVal? d with
    | none => rw [ha, hb, hc, hd] at h; exact absurd h (by simp)
    | some vd =>
      intro hmem
      rcases List.mem_cons.mp hmem with h1 | h1
      · exact pyDigit_ne_dot ha h1.symm
      rcases List.mem_cons.mp h1 with h2 | h2
      · exact pyDigit_ne_dot hb h2.symm
      rcases List.mem_cons.mp h2 with h3 | h3
      · exact pyDigit_ne_dot hc h3.symm
      · exact pyDigit_ne_dot hd (List.mem_singleton.mp h3).symm
  · exact absurd h (by simp)

/-- A consumed day alternative is a whole-component day-language word. -/
theorem alt31_sound {s rest : List Char} {v : Nat} (h : alt31 s = some (v, rest)) :
    ∃ pre, s = pre ++ rest ∧ dayLang pre = some v := by
  rw [alt31.eq_def] at h
  split at h
  · rename_i c r
    split at h
    · rename_i hc
      simp only [Option.some.injEq, Prod.mk.injEq] at h
      obtain ⟨hv, hr⟩ := h
      subst hr
      refine ⟨['3', c], rfl, ?_⟩
      rw [← hv]
      have hc2 : c = '0' ∨ c = '1' := by simpa using hc
      rcases hc2 with h0 | h0 <;> subst h0 <;> decide
    · exact absurd h (by simp)
  · exact absurd h (by simp)

/-- As `alt31_sound`, for the `[12]\d` alternative. -/
theorem altTens_sound {s rest : List Char} {v : Nat} (h : altTens s = some (v, rest)) :
    ∃ pre, s = pre ++ rest ∧ dayLang pre = some v := by
  rw [altTens.eq_def] at h
  split at h
  · rename_i c1 c2 r
    split at h
    · rename_i hc
      cases hd : pyDigitVal? c2 with
      | none => rw [hd] at h; exact absurd h (by simp)
      | some v2 =>
        rw [hd] at h
        simp only [Option.map_some', Option.some.injEq, Prod.mk.injEq] at h
        obtain ⟨hv, hr⟩ := h
        subst hr
        refine ⟨[c1, c2], rfl, ?_⟩
        rw [← hv]
        have hc2 : c1 = '1' ∨ c1 = '2' := by simpa using hc
        rcases hc2 with h0 | h0 <;> subst h0 <;> simp [dayLang, hd]
    · exact absurd h (by simp)
  · exact absurd h (by simp)

/-- As `alt31_sound`, for the `0[1-9]` alternative (day language). -/
theorem altZero_sound_day {s rest : List Char} {v : Nat} (h : altZero s = some (v, rest)) :
    ∃ pre, s = pre ++ rest ∧ dayLang pre = some v := by
  rw [altZero.eq_def] at h
  split at h
  · rename_i c r
    split at h
    · rename_i hc
      simp only [Option.some.injEq, Prod.mk.injEq] at h
      obtain ⟨hv, hr⟩ := h
      subst hr
      exact ⟨['0', c], rfl, by rw [← hv]; simp [dayLang, if_pos hc]⟩
    · exact absurd h (by simp)
  · exact absurd h (by simp)

/-- As `alt31_sound`, for the `[1-9]` alternative (day language). -/
theorem altOne_sound_day {s rest : List Char} {v : Nat} (h : altOne s = some (v, rest)) :
    ∃ pre, s = pre ++ rest ∧ dayLang pre = some v := by
  rw [altOne.eq_def] at h
  split at h
  · rename_i c r
    split at h
    · rename_i hc
      simp only [Option.some.injEq, Prod.mk.injEq] at h
      obtain ⟨hv, hr⟩ := h
      subst hr
      exact ⟨[c], rfl, by rw [← hv]; simp [dayLang, if_pos hc]⟩
    · exact absurd h (by simp)
  · exact absurd h (by simp)

/-- As `alt31_sound`, for the month alternative `1[0-2]`. -/
theorem altMTens_sound {s rest : List Char} {v : Nat} (h : altMTens s = some (v, rest)) :
    ∃ pre, s = pre ++ rest ∧ monthLang pre = some v := by
  rw [altMTens.eq_def] at h
  split at h
  · rename_i c r
    split at h
    · rename_i hc
      simp only [Option.some.injEq, Prod.mk.injEq] at h
      obtain ⟨hv, hr⟩ := h
      subst hr
      exact ⟨['1', c], rfl, by rw [← hv]; simp [monthLang, if_pos hc]⟩
    · exact absurd h (by simp)
  · exact absurd h (by simp)

/-- As `alt31_sound`, for `0[1-9]` in the month language. -/
theorem altZero_sound_month {s rest : List Char} {v : Nat} (h : altZero s = some (v, rest)) :
    ∃ pre, s = pre ++ rest ∧ monthLang pre = some v := by
  rw [altZero.eq_def] at h
  split at h
  · rename_i c r
    split at h
    · rename_i hc
      simp only [Option.some.injEq, Prod.mk.injEq] at h
      obtain ⟨hv, hr⟩ := h
      subst hr
      exact ⟨['0', c], rfl, by rw [← hv]; simp [monthLang, if_pos hc]⟩
    · exact absurd h (by simp)
  · exact absurd h (by simp)

/-- As `alt31_sound`, for `[1-9]` in the month language. -/
theorem altOne_sound_month {s rest : List Char} {v : Nat} (h : altOne s = some (v, rest)) :
    ∃ pre, s = pre ++ rest ∧ monthLang pre = some v := by
  rw [altOne.eq_def] at h
  split at h
  · rename_i c r
    split at h
    · rename_i hc
      simp only [Option.some.injEq, Prod.mk.injEq] at h
      obtain ⟨hv, hr⟩ := h
      subst hr
      exact ⟨[c], rfl, by rw [← hv]; simp [monthLang, if_pos hc]⟩
    · exact absurd h (by simp)
  · exact absurd h (by simp)

/-- Membership in an option's list view determines the option. -/
theorem mem_optToList {α : Type} {o : Option α} {a : α} (h : a ∈ o.toList) :
    o = some a := by
  cases o with
  | none => simp at h
  | some b => simp at h; rw [h]

/-- Every successful day-alternation branch consumes a day-language prefix. -/
theorem dayAlts_sound {s : List Char} {p : Nat × List Char} (h : p ∈ dayAlts s) :
    ∃ pre, s = pre ++ p.2 ∧ dayLang pre = some p.1 := by
  obtain ⟨v, rest⟩ := p
  rw [dayAlts] at h
  rcases List.mem_append.mp h with h1 | h1
  · rcases List.mem_append.mp h1 with h2 | h2
    · rcases List.mem_append.mp h2 with h3 | h3
      · exact alt31_sound (mem_optToList h3)
      · exact altTens_sound (mem_optToList h3)
    · exact altZero_sound_day (mem_optToList h2)
  · exact altOne_sound_day (mem_optToList h1)

/-- Every successful month-alternation branch consumes a month-language
prefix. -/
theorem monthAlts_sound {s : List Char} {p : Nat × List Char} (h : p ∈ monthAlts s) :
    ∃ pre, s = pre ++ p.2 ∧ monthLang pre = some p.1 := by
  obtain ⟨v, rest⟩ := p
  rw [monthAlts] at h
  rcases List.mem_append.mp h with h1 | h1
  · rcases List.mem_append.mp h1 with h2 | h2
    · exact altMTens_sound (mem_optToList h2)
    · exact altZero_sound_month (mem_optToList h2)
  · exact altOne_sound_month (mem_optToList h1)

/-- A day-language word is consumed by some day alternative, whatever
follows it. -/
theorem dayLang_complete {pre : List Char} {v : Nat} (h : dayLang pre = some v)
    (rest : List Char) : (v, rest) ∈ dayAlts (pre ++ rest) := by
  rw [dayLang.eq_def] at h
  split at h
  · rename_i c
    split at h
    · rename_i hc
      simp only [Option.some.injEq] at h
      subst h
      have ha : alt31 ('3' :: c :: rest) = some (30 + aVal c, rest) := by
        simp [alt31, hc]
      simp [dayAlts, ha]
    · exact absurd h (by simp)
  · rename_i c
    split at h
    · rename_i hc
      simp only [Option.some.injEq] at h
      subst h
      have ha : altZero ('0' :: c :: rest) = some (aVal c, rest) := by
        simp [altZero, hc]
      simp [dayAlts, ha]
    · exact absurd h (by simp)
  · rename_i c1 c2 _ _
    split at h
    · rename_i hc
      cases hd : pyDigitVal? c2 with
      | none => rw [hd] at h; exact absurd h (by simp)
      | some v2 =>
        rw [hd] at h
        simp only [Option.map_some', Option.some.injEq] at h
        subst h
        have ha : altTens (c1 :: c2 :: rest) = some (aVal c1 * 10 + v2, rest) := by
          simp [altTens, hc, hd]
        simp [dayAlts, ha]
    · exact absurd h (by simp)
  · rename_i c
    split at h
    · rename_i hc
      simp only [Option.some.injEq] at h
      subst h
      have ha : altOne (c :: rest) = some (aVal c, rest) := by
        simp [altOne, hc]
      simp [dayAlts, ha]
    · exact absurd h (by simp)
  · exact absurd h (by simp)

/-- A month-language word is consumed by some month alternative. -/
theorem monthLang_complete {pre : List Char} {v : Nat} (h : monthLang pre = some v)
    (rest : List Char) : (v, rest) ∈ monthAlts (pre ++ rest) := by
  rw [monthLang.eq_def] at h
  split at h
  · rename_i c
    split at h
    · rename_i hc
      simp only [Option.some.injEq] at h
      subst h
      have ha : altMTens ('1' :: c :: rest) = some (10 + aVal c, rest) := by
        simp [altMTens, hc]
      simp [monthAlts, ha]
    · exact absurd h (by simp)
  · rename_i c
    split at h
    · rename_i hc
      simp only [Option.some.injEq] at h
      subst h
      have ha : altZero ('0' :: c :: rest) = some (aVal c, rest) := by
        simp [altZero, hc]
      simp [monthAlts, ha]
    · exact absurd h (by simp)
  · rename_i c
    split at h
    · rename_i hc
      simp only [Option.some.injEq] at h
      subst h
      have ha : altOne (c :: rest) = some (aVal c, rest) := by
        simp [altOne, hc]
      simp [monthAlts, ha]
    · exact absurd h (by simp)
  · exact absurd h (by simp)

/-- The year tail check is the whole-component year language. -/
theorem matchTailY_sound {cs : List Char} {y : Nat} (h : matchTailY cs = some y) :
    yearLang cs = some y := by
  rw [matchTailY] at h
  split at h
  · rename_i y2 heq
    simp only [Option.some.injEq] at h
    subst h
    rw [year4?.eq_def] at heq
    split at heq
    · split at heq
      · rename_i a b c d r va vb vc vd ha hb hc hd
        simp only [Option.some.injEq, Prod.mk.injEq] at heq
        obtain ⟨hv, hr⟩ := heq
        subst hr
        simp [yearLang, ha, hb, hc, hd, hv]
      · simp at heq
    · simp at heq
  · simp at h

/-- A year-language word passes the year tail check. -/
theorem yearLang_year4? {cs : List Char} {y : Nat} (h : yearLang cs = some y) :
    year4? cs = some (y, []) := by
  rw [yearLang.eq_def] at h
  split at h
  · split at h
    · rename_i a b c d va vb vc vd ha hb hc hd
      simp only [Option.some.injEq] at h
      simp [year4?, ha, hb, hc, hd, h]
    · simp at h
  · simp at h

/-- Splitting at a dot is unambiguous when neither left part contains one. -/
theorem dot_split_unique : ∀ {a b c d : List Char},
    '.' ∉ a → '.' ∉ c → a ++ '.' :: b = c ++ '.' :: d → a = c ∧ b = d := by
  intro a
  induction a with
  | nil =>
    intro b c d _ hc h
    cases c with
    | nil =>
      simp only [List.nil_append, List.cons.injEq] at h
      exact ⟨rfl, h.2⟩
    | cons c0 cs =>
      simp only [List.nil_append, List.cons_append, List.cons.injEq] at h
      exact absurd (by rw [h.1]; exact List.mem_cons_self c0 cs) hc
  | cons a0 as ih =>
    intro b c d ha hc h
    cases c with
    | nil =>
      simp only [List.cons_append, List.nil_append, List.cons.injEq] at h
      exact absurd (by rw [← h.1]; exact List.mem_cons_self a0 as) ha
    | cons c0 cs =>
      simp only [List.cons_append, List.cons.injEq] at h
      obtain ⟨h1, h2⟩ := h
      have hta : '.' ∉ as := fun hx => ha (List.mem_cons_of_mem _ hx)
      have htc : '.' ∉ cs := fun hx => hc (List.mem_cons_of_mem _ hx)
      obtain ⟨h3, h4⟩ := ih hta htc h2
      exact ⟨by rw [h1, h3], h4⟩

/-- Any successful full match splits the input at two dots into day, month
and year components of the respective languages. -/
theorem matchDMY_sound {s : List Char} {dt : DateT} (h : matchDMY s = some dt) :
    ∃ dcs mcs ycs, s = dcs ++ '.' :: (mcs ++ '.' :: ycs) ∧
      dayLang dcs = some dt.d ∧ monthLang mcs = some dt.m ∧
      yearLang ycs = some dt.y := by
  rw [matchDMY] at h
  obtain ⟨dr, hdr, hF⟩ := findSome?_some h
  split at hF
  · rename_i r2 hsh
    obtain ⟨mr, hmr, hG⟩ := findSome?_some hF
    split at hG
    · rename_i r4 hsh2
      cases hty : matchTailY r4 with
      | none => rw [hty] at hG; simp at hG
      | some yv =>
        rw [hty] at hG
        simp only [Option.map_some', Option.some.injEq] at hG
        subst hG
        obtain ⟨dcs, hs, hdl⟩ := dayAlts_sound hdr
        obtain ⟨mcs, hr2, hml⟩ := monthAlts_sound hmr
        refine ⟨dcs, mcs, r4, ?_, ?_, ?_, ?_⟩
        · rw [hs, hsh, hr2, hsh2]
        · exact hdl
        · exact hml
        · exact matchTailY_sound hty
    · simp at hG
  · simp at hF

/-- Whenever the input is a day-dot-month-dot-year split, the matcher
succeeds and returns exactly those component values. -/
theorem matchDMY_complete {dcs mcs ycs : List Char} {d m y : Nat}
    (hd : dayLang dcs = some d) (hm : monthLang mcs = some m)
    (hy : yearLang ycs = some y) :
    matchDMY (dcs ++ '.' :: (mcs ++ '.' :: ycs)) = some ⟨y, m, d⟩ := by
  have hG : (match ((m, '.' :: ycs) : Nat × List Char).2 with
      | '.' :: r4 => (matchTailY r4).map (fun yv => (⟨yv, (m, '.' :: ycs).1, d⟩ : DateT))
      | _ => none) = some (⟨y, m, d⟩ : DateT) := by
    show (matchTailY ycs).map (fun yv => (⟨yv, m, d⟩ : DateT)) = _
    rw [matchTailY, yearLang_year4? hy]
    rfl
  have hinner : ((monthAlts (mcs ++ '.' :: ycs)).findSome? (fun mr =>
      match mr.2 with
      | '.' :: r4 => (matchTailY r4).map (fun yv => (⟨yv, mr.1, d⟩ : DateT))
      | _ => none)).isSome :=
    findSome?_isSome (monthLang_complete hm ('.' :: ycs)) hG
  obtain ⟨dt0, hdt0⟩ := Option.isSome_iff_exists.mp hinner
  have houter : (matchDMY (dcs ++ '.' :: (mcs ++ '.' :: ycs))).isSome := by
    rw [matchDMY]
    exact findSome?_isSome (dayLang_complete hd ('.' :: (mcs ++ '.' :: ycs))) hdt0
  obtain ⟨dt1, hdt1⟩ := Option.isSome_iff_exists.mp houter
  obtain ⟨dcs2, mcs2, ycs2, hsplit, hdl2, hml2, hyl2⟩ := matchDMY_sound hdt1
  obtain ⟨hde, hrest⟩ := dot_split_unique (dayLang_no_dot hd) (dayLang_no_dot hdl2) hsplit
  obtain ⟨hme, hye⟩ := dot_split_unique (monthLang_no_dot hm) (monthLang_no_dot hml2) hrest
  rw [hdt1]
  have h1 : dt1.d = d := by
    rw [← hde] at hdl2
    rw [hdl2] at hd
    exact Option.some.injEq .. ▸ hd
  have h2 : dt1.m = m := by
    rw [← hme] at hml2
    rw [hml2] at hm
    exact Option.some.injEq .. ▸ hm
  have h3 : dt1.y = y := by
    rw [← hye] at hyl2
    rw [hyl2] at hy
    exact Option.some.injEq .. ▸ hy
  cases dt1
  simp only at h1 h2 h3
  rw [h1, h2, h3]

/-- Counterexample to C5 as stated: `"8.06.2024"` has a one-digit day — it
is not of the ten-character literal `DD.MM.YYYY` form — yet parsing
succeeds. -/
theorem claim_C5_counterexample :
    Birthday.init ("8.06.2024") = .ok ⟨⟨2024, 6, 8⟩⟩ ∧
    ("8.06.2024" : String).data.length = 9 := by
  exact ⟨rfl, rfl⟩

/-- Claim C5 (amended): parsing succeeds exactly when the input splits at
two dots into a day component matching `3[01]|[12]\d|0[1-9]|[1-9]`, a month
component matching `1[0-2]|0[1-9]|[1-9]` and a year of four `\d` digits
(so day and month may be one- or two-digit, and `\d` is Unicode-aware),
whose values form a real calendar date; every other string fails with the
fixed `ValueError` message. -/
theorem claim_C5 (s : String) :
    ((∃ b, Birthday.init s = .ok b) ↔
      (∃ dcs mcs ycs d m y, s.data = dcs ++ '.' :: (mcs ++ '.' :: ycs) ∧
        dayLang dcs = some d ∧ monthLang mcs = some m ∧ yearLang ycs = some y ∧
        isValidDate ⟨y, m, d⟩ = true)) ∧
    (¬(∃ dcs mcs ycs d m y, s.data = dcs ++ '.' :: (mcs ++ '.' :: ycs) ∧
        dayLang dcs = some d ∧ monthLang mcs = some m ∧ yearLang ycs = some y ∧
        isValidDate ⟨y, m, d⟩ = true) →
      Birthday.init s = .error (.valueError birthdayErrMsg)) := by
  constructor
  · constructor
    · rintro ⟨b, hb⟩
      rw [Birthday.init] at hb
      cases hp : pyStrptimeDMY s.data with
      | error e => rw [hp] at hb; simp at hb
      | ok dt =>
        rw [pyStrptimeDMY] at hp
        split at hp
        · rename_i dt2 hmm
          split at hp
          · rename_i hval
            simp only [Except.ok.injEq] at hp
            subst hp
            obtain ⟨dcs, mcs, ycs, hsplit, hdl, hml, hyl⟩ := matchDMY_sound hmm
            exact ⟨dcs, mcs, ycs, dt2.d, dt2.m, dt2.y, hsplit, hdl, hml, hyl, hval⟩
          · simp at hp
        · simp at hp
    · rintro ⟨dcs, mcs, ycs, d, m, y, hsplit, hdl, hml, hyl, hval⟩
      have hmatch : matchDMY s.data = some ⟨y, m, d⟩ := by
        rw [hsplit]
        exact matchDMY_complete hdl hml hyl
      have hps : pyStrptimeDMY s.data = .ok ⟨y, m, d⟩ := by
        simp [pyStrptimeDMY, hmatch, hval]
      exact ⟨⟨⟨y, m, d⟩⟩, by rw [Birthday.init, hps]⟩
  · intro hdecl
    rw [Birthday.init]
    cases hp : pyStrptimeDMY s.data with
    | error e => rfl
    | ok dt =>
      exfalso
      apply hdecl
      rw [pyStrptimeDMY] at hp
      split at hp
      · rename_i dt2 hmm
        split at hp
        · rename_i hval
          simp only [Except.ok.injEq] at hp
          subst hp
          obtain ⟨dcs, mcs, ycs, hsplit, hdl, hml, hyl⟩ := matchDMY_sound hmm
          exact ⟨dcs, mcs, ycs, dt2.d, dt2.m, dt2.y, hsplit, hdl, hml, hyl, hval⟩
        · simp at hp
      · simp at hp

/-- Witness for C5 at a concrete valid input. -/
theorem claim_C5_witness : ∃ b, Birthday.init ("08.06.2024") = .ok b :=
  (claim_C5 ("08.06.2024")).1.mpr
    ⟨['0', '8'], ['0', '6'], ['2', '0', '2', '4'], 8, 6, 2024,
      by decide, by decide, by decide, by decide, by decide⟩

/-! ### Decimal rendering facts (for the round-trip claim) -/

/-- `natDigitsAux` ignores the fuel once it exceeds the argument. -/
theorem natDigitsAux_fuel : ∀ (f1 f2 n : Nat), n < f1 → n < f2 →
    natDigitsAux f1 n = natDigitsAux f2 n := by
  intro f1
  induction f1 with
  | zero => intro f2 n h1 _; omega
  | succ f ih =>
    intro f2 n h1 h2
    cases f2 with
    | zero => omega
    | succ g =>
      rw [natDigitsAux, natDigitsAux]
      by_cases hn : n < 10
      · rw [if_pos hn, if_pos hn]
      · rw [if_neg hn, if_neg hn]
        have hdiv : n / 10 < n := Nat.div_lt_self (by omega) (by omega)
        rw [ih g (n / 10) (by omega) (by omega)]

/-- The digit list of a four-digit number. -/
theorem natDigits_four {y : Nat} (h1 : 1000 ≤ y) (h2 : y ≤ 9999) :
    natDigits y = [y / 1000, y / 100 % 10, y / 10 % 10, y % 10] := by
  have e2 : y / 10 / 10 = y / 100 := by omega
  have e3 : y / 100 / 10 = y / 1000 := by omega
  rw [natDigits, natDigitsAux, if_neg (by omega : ¬ y < 10)]
  rw [natDigitsAux_fuel y (y / 10 + 1) (y / 10) (by omega) (by omega)]
  rw [natDigitsAux, if_neg (by omega : ¬ y / 10 < 10), e2]
  rw [natDigitsAux_fuel (y / 10) (y / 100 + 1) (y / 100) (by omega) (by omega)]
  rw [natDigitsAux, if_neg (by omega : ¬ y / 100 < 10), e3]
  rw [natDigitsAux_fuel (y / 100) (y / 1000 + 1) (y / 1000) (by omega) (by omega)]
  rw [natDigitsAux, if_pos (by omega : y / 1000 < 10)]
  simp

/-- `\d` recovers the value of every rendered decimal digit. -/
theorem pyDigitVal?_decDigit : ∀ v < 10, pyDigitVal? (decDigit v) = some v := by decide

/-- The year language accepts the decimal rendering of a four-digit year. -/
theorem yearLang_natToDec {y : Nat} (h1 : 1000 ≤ y) (h2 : y ≤ 9999) :
    yearLang (natToDec y) = some y := by
  rw [natToDec, natDigits_four h1 h2]
  simp only [List.map_cons, List.map_nil]
  have ha := pyDigitVal?_decDigit (y / 1000) (by omega)
  have hb := pyDigitVal?_decDigit (y / 100 % 10) (by omega)
  have hc := pyDigitVal?_decDigit (y / 10 % 10) (by omega)
  have hd := pyDigitVal?_decDigit (y % 10) (by omega)
  simp only [yearLang, ha, hb, hc, hd, Option.some.injEq]
  omega

/-- Every month length is at most 31. -/
theorem daysInMonthFlag_le (l : Bool) (m : Nat) : daysInMonthFlag l m ≤ 31 := by
  rw [daysInMonthFlag.eq_def]
  split
  · split <;> omega
  all_goals omega

/-- The numeric bounds packed into `isValidDate`. -/
theorem isValidDate_bounds {dt : DateT} (h : isValidDate dt = true) :
    1 ≤ dt.y ∧ dt.y ≤ 9999 ∧ 1 ≤ dt.m ∧ dt.m ≤ 12 ∧ 1 ≤ dt.d ∧ dt.d ≤ 31 := by
  rw [isValidDate] at h
  simp only [Bool.and_eq_true, decide_eq_true_eq] at h
  have := daysInMonthFlag_le (isLeap dt.y) dt.m
  omega

/-- The day language accepts every zero-padded day value. -/
theorem dayLang_pad2 : ∀ d < 32, 1 ≤ d → dayLang (pad2 d) = some d := by decide

/-- The month language accepts every zero-padded month value. -/
theorem monthLang_pad2 : ∀ m < 13, 1 ≤ m → monthLang (pad2 m) = some m := by decide

/-- A four-digit year needs no extra padding. -/
theorem pad4_eq {y : Nat} (h1 : 1000 ≤ y) (h2 : y ≤ 9999) : pad4 y = natToDec y := by
  rw [pad4, natToDec, natDigits_four h1 h2]
  rfl

/-- Counterexample to C6 as stated: `"01.01.0999"` is the zero-padded
`DD.MM.YYYY` rendering of the real date 0999-01-01, it parses, but
formatting prints the year unpadded, so the round trip is not the
identity. -/
theorem claim_C6_counterexample :
    zeroPadDMY ⟨999, 1, 1⟩ = "01.01.0999" ∧
    isValidDate ⟨999, 1, 1⟩ = true ∧
    Birthday.init ("01.01.0999") = .ok ⟨⟨999, 1, 1⟩⟩ ∧
    Birthday.str ⟨⟨999, 1, 1⟩⟩ = "01.01.999" ∧
    ("01.01.999" : String) ≠ "01.01.0999" := by
  exact ⟨rfl, rfl, rfl, rfl, by decide⟩

/-- Claim C6 (amended): for every real calendar date whose year has four
significant digits (1000 ≤ year), parsing the zero-padded `DD.MM.YYYY`
rendering and formatting back is the identity. -/
theorem claim_C6 (dt : DateT) (hv : isValidDate dt = true) (hy : 1000 ≤ dt.y) :
    Birthday.init (zeroPadDMY dt) = .ok ⟨dt⟩ ∧
    Birthday.str ⟨dt⟩ = zeroPadDMY dt := by
  obtain ⟨_, hy2, hm1, hm2, hd1, hd2⟩ := isValidDate_bounds hv
  have hpad : pad4 dt.y = natToDec dt.y := pad4_eq hy hy2
  have hdl : dayLang (pad2 dt.d) = some dt.d := dayLang_pad2 dt.d (by omega) hd1
  have hml : monthLang (pad2 dt.m) = some dt.m := monthLang_pad2 dt.m (by omega) hm1
  have hyl : yearLang (natToDec dt.y) = some dt.y := yearLang_natToDec hy hy2
  have hv2 : isValidDate ⟨dt.y, dt.m, dt.d⟩ = true := hv
  constructor
  · have hdata : (zeroPadDMY dt).data =
        pad2 dt.d ++ '.' :: (pad2 dt.m ++ '.' :: natToDec dt.y) := by
      rw [zeroPadDMY, hpad]
    have hmatch : matchDMY (zeroPadDMY dt).data = some ⟨dt.y, dt.m, dt.d⟩ := by
      rw [hdata]
      exact matchDMY_complete hdl hml hyl
    have hps : pyStrptimeDMY (zeroPadDMY dt).data = .ok ⟨dt.y, dt.m, dt.d⟩ := by
      simp [pyStrptimeDMY, hmatch, hv2]
    rw [Birthday.init, hps]
  · rw [Birthday.str, fmtDMY, zeroPadDMY, hpad]

/-- Witness for C6 at a concrete date. -/
theorem claim_C6_witness :
    Birthday.init (zeroPadDMY ⟨2024, 6, 8⟩) = .ok ⟨⟨2024, 6, 8⟩⟩ ∧
    Birthday.str ⟨⟨2024, 6, 8⟩⟩ = zeroPadDMY ⟨2024, 6, 8⟩ :=
  claim_C6 ⟨2024, 6, 8⟩ (by decide) (by decide)

end Hw8
